import Mathlib

/-!
Shallow embedding of the DeepLX-Worker translation pipeline (src/index.js).

Modelling conventions:
* JavaScript strings are Lean `String`s; where character-level reasoning is
  needed (cache keys, body perturbation) we work on `String.data : List Char`.
* `Math.random()` is modelled as an explicit rational input `r` with
  `0 ≤ r < 1`; `Date.now()` as an explicit natural-number input `nowMs`.
* The outbound HTTP call is modelled by passing the backend response as an
  explicit argument; the Cloudflare cache is an association list threaded
  through the dispatcher, and an effect trace records which side effects
  (cache lookup, backend call, cache store) the dispatcher performed.
* JavaScript `undefined` is modelled with `Option`; a field that the code
  never sets on a given branch is `none`.
-/

namespace DeepLX

/-! ## Backend protocol emulator helpers (src/index.js lines 27-67) -/

/-- Model of `getICount`: `translateText.split('i').length - 1`, i.e. the
number of occurrences of the character i in the text. -/
def getICount (translateText : String) : Nat :=
  translateText.data.count 'i'

/-- Model of `getRandomNumber`: `Math.floor(Math.random() * 99999) + 100000`,
multiplied by 1000.  The value of `Math.random()` is the explicit argument
`r`, a rational in the interval [0, 1). -/
def getRandomNumber (r : ℚ) : ℤ :=
  (⌊r * 99999⌋ + 100000) * 1000

/-- Model of `getTimeStamp`: `Date.now()` is the explicit argument `nowMs`.
If `iCount` is nonzero, let `n = iCount + 1` and return
`ts - (ts % n) + n`; otherwise return `ts` unchanged. -/
def getTimeStamp (nowMs : Nat) (iCount : Nat) : Nat :=
  if iCount ≠ 0 then
    let n := iCount + 1
    nowMs - nowMs % n + n
  else
    nowMs

/-- Model of the JavaScript `String.prototype.replace` with a string pattern:
replaces the first occurrence of `pat` in `s` with `rep`; if `pat` does not
occur, returns `s` unchanged.  (With an empty pattern JavaScript prepends the
replacement, which the first branch also captures.) -/
def replaceFirst (s pat rep : List Char) : List Char :=
  if pat.isPrefixOf s then rep ++ s.drop pat.length
  else
    match s with
    | [] => []
    | c :: rest => c :: replaceFirst rest pat rep

/-- The literal substring searched for by `handlerBodyMethod`. -/
def methodPat : List Char := "\"method\":\"".data

/-- Replacement used when the id condition holds: spaces around the colon. -/
def methodRepSpaced : List Char := "\"method\" : \"".data

/-- Replacement used otherwise: a single space after the colon. -/
def methodRepPlain : List Char := "\"method\": \"".data

/-- The id condition of `handlerBodyMethod`:
`(random + 5) % 29 === 0 || (random + 3) % 13 === 0`. -/
def handlerCalc (random : ℤ) : Bool :=
  (random + 5) % 29 == 0 || (random + 3) % 13 == 0

/-- Model of `handlerBodyMethod`: depending on `handlerCalc random`, rewrite
the first occurrence of `"method":"` in the body with either the spaced or
the plain variant. -/
def handlerBodyMethod (random : ℤ) (body : List Char) : List Char :=
  if handlerCalc random then replaceFirst body methodPat methodRepSpaced
  else replaceFirst body methodPat methodRepPlain

/-! ## Cache key derivation (src/index.js line 95)

The key is the string
`https://deeplx.cache/FINALSOURCE/FINALTARGET/encodeURIComponent(text)`.
`encodeURIComponent` is the ECMAScript builtin: characters in the unreserved
set `A-Z a-z 0-9 - _ . ! ~ * ( )` and the single quote are copied verbatim,
every other character is replaced by the percent-encoding of its UTF-8
bytes with uppercase hexadecimal digits. -/

/-- Unreserved code points of `encodeURIComponent` (uriAlpha, DecimalDigit,
and the marks `- _ . ! ~ * ( )` plus the single quote, code 39). -/
def uriUnreserved (n : Nat) : Bool :=
  (65 ≤ n && n ≤ 90) || (97 ≤ n && n ≤ 122) || (48 ≤ n && n ≤ 57) ||
  n == 45 || n == 95 || n == 46 || n == 33 || n == 126 || n == 42 ||
  n == 39 || n == 40 || n == 41

/-- Uppercase hexadecimal digit for a value below 16. -/
def hexDigit (n : Nat) : Char :=
  if n < 10 then Char.ofNat (48 + n) else Char.ofNat (55 + n)

/-- Percent escape of one byte: a percent sign and two hex digits. -/
def byteEsc (b : Nat) : List Char :=
  ['%', hexDigit (b / 16), hexDigit (b % 16)]

/-- UTF-8 byte sequence of a Unicode code point. -/
def charUtf8 (n : Nat) : List Nat :=
  if n < 128 then [n]
  else if n < 2048 then [192 + n / 64, 128 + n % 64]
  else if n < 65536 then [224 + n / 4096, 128 + n / 64 % 64, 128 + n % 64]
  else [240 + n / 262144, 128 + n / 4096 % 64, 128 + n / 64 % 64, 128 + n % 64]

/-- Encoding of a single character under `encodeURIComponent`. -/
def encChar (c : Char) : List Char :=
  if uriUnreserved c.toNat then [c] else (charUtf8 c.toNat).flatMap byteEsc

/-- Model of the ECMAScript `encodeURIComponent` builtin on the character
list of a string. -/
def encodeURIComponent : List Char → List Char
  | [] => []
  | c :: rest => encChar c ++ encodeURIComponent rest

/-- The raw, unnormalized URL template string of line 95:
`https://deeplx.cache/FINALSOURCE/FINALTARGET/ENCODEDTEXT`, at the character
level, before the `new Request(...)` WHATWG URL normalization. -/
def rawKey (finalSourceLang finalTargetLang translateText : String) : List Char :=
  "https://deeplx.cache/".data ++ finalSourceLang.data ++ ['/'] ++
    finalTargetLang.data ++ ['/'] ++ encodeURIComponent translateText.data

/-! ### WHATWG URL normalization of the cache key (line 95)

Line 95 wraps the template string in `new Request(...)`, and the Cache API
keys on the normalized Request URL (with the fragment excluded, as the
cache matching algorithm does).  The scheme and host of the template are
fixed literals, so every input-dependent character is consumed in the
parser's path, query or fragment states; the model below covers exactly
those: removal of tab and newline characters and of trailing
control-or-space characters, path-segment splitting on both slash and
backslash, dot-segment removal (including the percent-encoded spellings,
ASCII case-insensitively), per-character percent-encoding with the path
and special-query percent-encode sets (UTF-8, uppercase hex), and dropping
of the fragment. -/

/-- Characters removed anywhere in the URL input before parsing:
tab, line feed, carriage return. -/
def isUrlStrip (c : Char) : Bool :=
  c = Char.ofNat 9 || c = Char.ofNat 10 || c = Char.ofNat 13

/-- Removal of tab and newline characters from the URL input. -/
def urlStrip (l : List Char) : List Char :=
  l.filter (fun c => !(isUrlStrip c))

/-- Removal of trailing C0-control-or-space characters from the URL input
(the leading trim never reaches the input-dependent suffix, because the
template starts with the fixed scheme). -/
def trimTrail (l : List Char) : List Char :=
  (l.reverse.dropWhile (fun c => c.toNat ≤ 32)).reverse

/-- The WHATWG path percent-encode set: C0 controls and code points above
tilde, space, double quote, hash, angle brackets, question mark, backtick,
curly braces. -/
def inPathEncodeSet (n : Nat) : Bool :=
  n < 32 || n > 126 || n == 32 || n == 34 || n == 35 || n == 60 || n == 62 ||
  n == 63 || n == 96 || n == 123 || n == 125

/-- The WHATWG special-query percent-encode set: C0 controls and code
points above tilde, space, double quote, hash, angle brackets, and the
single quote (code 39). -/
def inQueryEncodeSet (n : Nat) : Bool :=
  n < 32 || n > 126 || n == 32 || n == 34 || n == 35 || n == 60 || n == 62 ||
  n == 39

/-- Percent-encode one character with the given percent-encode set
(UTF-8 bytes, uppercase hex), copying it verbatim otherwise. -/
def urlEncChar (inSet : Nat → Bool) (c : Char) : List Char :=
  if inSet c.toNat then (charUtf8 c.toNat).flatMap byteEsc else [c]

/-- A single-dot path segment: a full stop or an ASCII case-insensitive
match for its percent-encoded spelling. -/
def isDotStr (b : List Char) : Bool :=
  b == ".".data || b == "%2e".data || b == "%2E".data

/-- A double-dot path segment: two full stops or an ASCII case-insensitive
match for a spelling with one or both dots percent-encoded. -/
def isDoubleDotStr (b : List Char) : Bool :=
  b == "..".data || b == ".%2e".data || b == ".%2E".data ||
  b == "%2e.".data || b == "%2E.".data ||
  b == "%2e%2e".data || b == "%2e%2E".data ||
  b == "%2E%2e".data || b == "%2E%2E".data

/-- Close the current path-segment buffer: a double-dot segment pops the
previous segment, a single-dot segment is dropped, anything else is
appended; when the segment was ended by the end of the path rather than a
slash, dot segments leave an empty final segment. -/
def closeSeg (segs : List (List Char)) (buf : List Char) (isSlash : Bool) :
    List (List Char) :=
  if isDoubleDotStr buf then
    if isSlash then segs.dropLast else segs.dropLast ++ [[]]
  else if isDotStr buf then
    if isSlash then segs else segs ++ [[]]
  else segs ++ [buf]

/-- The query state of the URL parser: percent-encode with the
special-query set until a hash starts the (dropped) fragment. -/
def queryWalk : List Char → List Char
  | [] => []
  | c :: rest =>
    if c = '#' then [] else urlEncChar inQueryEncodeSet c ++ queryWalk rest

/-- The path state of the URL parser, started just after the first slash of
the path: slash and backslash end a segment, a question mark starts the
query, a hash starts the (dropped) fragment, every other character is
percent-encoded with the path set into the segment buffer.  Returns the
path segments and the query (when present). -/
def urlWalk : List Char → List (List Char) → List Char →
    List (List Char) × Option (List Char)
  | [], segs, buf => (closeSeg segs buf false, none)
  | c :: rest, segs, buf =>
    if c = '/' ∨ c = '\\' then urlWalk rest (closeSeg segs buf true) []
    else if c = '?' then (closeSeg segs buf false, some (queryWalk rest))
    else if c = '#' then (closeSeg segs buf false, none)
    else urlWalk rest segs (buf ++ urlEncChar inPathEncodeSet c)

/-- URL path serialization: a slash before every segment. -/
def serializeSegs : List (List Char) → List Char
  | [] => []
  | s :: rest => '/' :: s ++ serializeSegs rest

/-- The normalized Request URL of `https://deeplx.cache/` followed by the
given suffix, serialized without the fragment: the cache identity used by
`caches.default` for the key of line 95. -/
def requestUrlNorm (suffix : List Char) : List Char :=
  let cleaned := urlStrip (trimTrail suffix)
  let walked := urlWalk cleaned [] []
  "https://deeplx.cache".data ++ serializeSegs walked.1 ++
    (match walked.2 with
     | some qs => '?' :: qs
     | none => [])

/-- Model of the cache key of line 95: the WHATWG-normalized URL of the
template `https://deeplx.cache/FINALSOURCE/FINALTARGET/ENCODEDTEXT`, which
is what `new Request(...)` and the Cache API actually key on. -/
def cacheKey (finalSourceLang finalTargetLang translateText : String) : List Char :=
  requestUrlNorm (finalSourceLang.data ++ ['/'] ++ finalTargetLang.data ++ ['/'] ++
    encodeURIComponent translateText.data)

/-! ### Decoders used to prove that the encoding layer is injective.

These are not part of the source; they are proof tools: a left inverse for
`encodeURIComponent` built in two stages (percent layer, then UTF-8 layer). -/

/-- Value of one hexadecimal digit character (uppercase letters only, as
produced by `hexDigit`). -/
def hexVal (c : Char) : Option Nat :=
  if 48 ≤ c.toNat ∧ c.toNat ≤ 57 then some (c.toNat - 48)
  else if 65 ≤ c.toNat ∧ c.toNat ≤ 70 then some (c.toNat - 55)
  else none

/-- First decoding stage: undo the percent layer, turning the encoded
character list back into the byte list it denotes. -/
def percentDec : List Char → Option (List Nat)
  | [] => some []
  | c :: rest =>
    if c = '%' then
      match rest with
      | h1 :: h2 :: r =>
        match hexVal h1, hexVal h2 with
        | some a, some b => (percentDec r).map (fun l => (16 * a + b) :: l)
        | _, _ => none
      | _ => none
    else (percentDec rest).map (fun l => c.toNat :: l)

/-- Decode one UTF-8 encoded code point from the front of a byte list,
returning it together with the remaining bytes. -/
def utf8DecOne : List Nat → Option (Nat × List Nat)
  | [] => none
  | b :: rest =>
    if b < 128 then some (b, rest)
    else if b < 192 then none
    else if b < 224 then
      match rest with
      | b2 :: r => some ((b - 192) * 64 + (b2 - 128), r)
      | _ => none
    else if b < 240 then
      match rest with
      | b2 :: b3 :: r =>
        some ((b - 224) * 4096 + (b2 - 128) * 64 + (b3 - 128), r)
      | _ => none
    else
      match rest with
      | b2 :: b3 :: b4 :: r =>
        some ((b - 240) * 262144 + (b2 - 128) * 4096 + (b3 - 128) * 64 +
          (b4 - 128), r)
      | _ => none

/-- Second decoding stage, fuelled: undo the UTF-8 layer, turning a byte
list back into the code-point list it encodes. -/
def utf8DecAux : Nat → List Nat → Option (List Nat)
  | _, [] => some []
  | 0, _ :: _ => none
  | f + 1, b :: rest =>
    match utf8DecOne (b :: rest) with
    | none => none
    | some (n, r) => (utf8DecAux f r).map (fun l => n :: l)

/-- Second decoding stage: the fuelled decoder with enough fuel. -/
def utf8Dec (l : List Nat) : Option (List Nat) :=
  utf8DecAux l.length l

/-! ## Translation dispatcher (src/index.js lines 81-226) -/

/-- Model of one entry of `alternatives` in the backend payload; the code
uses only its `text` field (`alt => alt.text`). -/
structure Alt where
  text : String
deriving DecidableEq, Repr

/-- Model of one entry of `resultJson.result.texts`. -/
structure TextItem where
  text : String
  alternatives : Option (List Alt)
deriving DecidableEq, Repr

/-- Model of `resultJson.result`. -/
structure ResultObj where
  texts : Option (List TextItem)
  lang : String
deriving DecidableEq, Repr

/-- Model of the backend HTTP response consumed by `deeplxTranslate`:
its status, and the parsed JSON payload (`error` object message and
`result` object).  `errorText` models the raw body read on non-2xx. -/
structure BackendResp where
  status : Nat
  errorText : String
  error : Option String
  result : Option ResultObj
deriving DecidableEq, Repr

/-- Model of the result object built by `deeplxTranslate`.  Fields that a
given branch of the code does not set are `none`. -/
structure TransResult where
  code : Nat
  message : Option String := none
  id : Option ℤ := none
  data : Option String := none
  alternatives : Option (List String) := none
  source_lang : Option String := none
  target_lang : Option String := none
  method : Option String := none
  cached : Bool
deriving DecidableEq, Repr

/-- The Cloudflare cache, modelled as an association list from key
characters to the stored result; `put` prepends, `match` takes the first
binding. -/
def CacheState := List (List Char × TransResult)

/-- Model of `caches.default.match`. -/
def cacheMatch (st : CacheState) (key : List Char) : Option TransResult :=
  match st with
  | [] => none
  | (k, v) :: rest => if k = key then some v else cacheMatch rest key

/-- Model of `caches.default.put` (the stored body is the serialized
`finalResult`; we keep it structured). -/
def cachePut (st : CacheState) (key : List Char) (v : TransResult) : CacheState :=
  (key, v) :: st

/-- Nondeterministic inputs of one dispatcher run: the value of
`Math.random()` and of `Date.now()`. -/
structure Env where
  rand : ℚ
  nowMs : Nat

/-- Effect trace of one dispatcher run: whether the cache was consulted,
whether the outbound backend call was issued, and whether a cache store was
scheduled. -/
structure Trace where
  lookedUp : Bool
  calledBackend : Bool
  stored : Bool
deriving DecidableEq, Repr

/-- Output of one dispatcher run: the result object, the cache state after
the run (with any scheduled store applied), and the effect trace. -/
structure StepOut where
  result : TransResult
  state : CacheState
  trace : Trace

/-- Model of `String.prototype.toUpperCase`, applied per character (for the
ASCII language codes handled here this agrees with the JavaScript builtin). -/
def toUpperStr (s : String) : String :=
  ⟨s.data.map Char.toUpper⟩

/-- Normalization of the source language (line 91):
`(!sourceLang || sourceLang === 'auto') ? 'EN' : sourceLang.toUpperCase()`.
The absent (`undefined`) and empty-string arguments are both falsy and are
modelled by the empty string. -/
def finalSource (sourceLang : String) : String :=
  if sourceLang = "" ∨ sourceLang = "auto" then "EN" else toUpperStr sourceLang

/-- Normalization of the target language (line 92): `targetLang.toUpperCase()`. -/
def finalTarget (targetLang : String) : String :=
  toUpperStr targetLang

/-- Model of `deeplxTranslate`.  The backend response `resp` stands for what
the `fetch` would return; it is consumed only when the code actually issues
the call, which the trace records.  The `catch` branch (network fault) is
not modelled: `resp` always represents a delivered HTTP response. -/
def deeplxTranslate (sourceLang targetLang translateText dlSession : String)
    (useCache : Bool) (st : CacheState) (env : Env) (resp : BackendResp) :
    StepOut :=
  if translateText = "" then
    { result := { code := 400, message := some "No text to translate.", cached := false }
      state := st
      trace := { lookedUp := false, calledBackend := false, stored := false } }
  else
    let fs := finalSource sourceLang
    let ft := finalTarget targetLang
    let key := cacheKey fs ft translateText
    match (if useCache then cacheMatch st key else none) with
    | some r =>
      { result := { r with cached := true }
        state := st
        trace := { lookedUp := true, calledBackend := false, stored := false } }
    | none =>
      let id := getRandomNumber env.rand
      let iCount := getICount translateText
      let _timestamp := getTimeStamp env.nowMs iCount
      if resp.status = 429 then
        { result :=
            { code := 429
              message := some "Too many requests, your IP has been blocked by DeepL temporarily."
              cached := false }
          state := st
          trace := { lookedUp := useCache, calledBackend := true, stored := false } }
      else if ¬ (200 ≤ resp.status ∧ resp.status ≤ 299) then
        { result :=
            { code := resp.status
              message := some ("DeepL API error: " ++ resp.errorText)
              cached := false }
          state := st
          trace := { lookedUp := useCache, calledBackend := true, stored := false } }
      else
        match resp.error with
        | some m =>
          { result :=
              { code := 500
                message := some ("DeepL API returned an error: " ++ m)
                cached := false }
            state := st
            trace := { lookedUp := useCache, calledBackend := true, stored := false } }
        | none =>
          match resp.result with
          | none =>
            { result :=
                { code := 500
                  message := some "Translation failed, no text returned."
                  cached := false }
              state := st
              trace := { lookedUp := useCache, calledBackend := true, stored := false } }
          | some ro =>
            match ro.texts with
            | none =>
              { result :=
                  { code := 500
                    message := some "Translation failed, no text returned."
                    cached := false }
                state := st
                trace := { lookedUp := useCache, calledBackend := true, stored := false } }
            | some [] =>
              { result :=
                  { code := 500
                    message := some "Translation failed, no text returned."
                    cached := false }
                state := st
                trace := { lookedUp := useCache, calledBackend := true, stored := false } }
            | some (t0 :: _) =>
              let alts : List String :=
                match t0.alternatives with
                | some l => l.map Alt.text
                | none => []
              let finalResult : TransResult :=
                { code := 200
                  id := some id
                  data := some t0.text
                  alternatives := some alts
                  source_lang := some ro.lang
                  target_lang := some ft
                  method := some (if dlSession ≠ "" then "Pro" else "Free")
                  cached := false }
              { result := finalResult
                state := if useCache then cachePut st key finalResult else st
                trace := { lookedUp := useCache, calledBackend := true, stored := useCache } }

/-! ## Authentication gate (src/index.js lines 233-259 and 382-397)

`env.TOKEN` may be undefined, so it is an `Option String` (`none` for
undefined).  `request.query.token` likewise.  The `Authorization` header is
`none` when absent. -/

/-- Model of lines 239-244: extract the token from the Authorization header;
the variable starts as the empty string and is set only when the header
splits into exactly two parts whose first is `Bearer` or `DeepL-Auth-Key`. -/
def tokenFromHeader (authHeader : Option String) : String :=
  match authHeader with
  | none => ""
  | some h =>
    match h.splitOn " " with
    | [p0, p1] => if p0 = "Bearer" ∨ p0 = "DeepL-Auth-Key" then p1 else ""
    | _ => ""

/-- Model of `authMiddleware` (lines 233-259): returns `true` when it would
return the 401 response, i.e. when `tokenInQuery !== env.TOKEN` and
`tokenInHeader !== env.TOKEN` both hold.  `tokenInQuery` is compared as an
optional value (undefined equals undefined); `tokenInHeader` is always a
string, so it can only equal a defined `env.TOKEN`. -/
def authMiddleware (tokenQ : Option String) (authHeader : Option String)
    (envTOKEN : Option String) : Bool :=
  let tokenInHeader := tokenFromHeader authHeader
  decide (tokenQ ≠ envTOKEN) && decide (envTOKEN ≠ some tokenInHeader)

/-- Model of line 384: `env.TOKEN !== undefined && env.TOKEN !== ''`. -/
def isPrivate (envTOKEN : Option String) : Bool :=
  decide (envTOKEN ≠ none) && decide (envTOKEN ≠ some "")

/-- Model of `String.prototype.startsWith`, structurally on characters. -/
def startsWithStr (s p : String) : Bool :=
  p.data.isPrefixOf s.data

/-- Model of the gate in `fetch` (lines 386-393), with the JavaScript
operator precedence of line 388 preserved: `&&` binds tighter than `||`, so
the middleware runs when
`(isPrivate && pathname.startsWith('/translate')) || pathname.startsWith('/v1/translate') || pathname.startsWith('/v2/translate')`.
Returns `true` when the request is blocked with a 401 before reaching the
router, `false` when it reaches `router.handle`. -/
def fetchAuthBlocks (envTOKEN : Option String) (pathname : String)
    (tokenQ : Option String) (authHeader : Option String) : Bool :=
  if (isPrivate envTOKEN && startsWithStr pathname "/translate")
      || startsWithStr pathname "/v1/translate"
      || startsWithStr pathname "/v2/translate" then
    authMiddleware tokenQ authHeader envTOKEN
  else
    false

/-! ## Helper lemmas: the encoding layer of the cache key is injective -/

lemma uriUnreserved_bound {n : Nat} (h : uriUnreserved n = true) :
    n < 128 ∧ n ≠ 37 ∧ n ≠ 47 := by
  simp only [uriUnreserved, Bool.or_eq_true, Bool.and_eq_true, beq_iff_eq,
    decide_eq_true_eq] at h
  omega

lemma charToNat_lt (c : Char) : c.toNat < 1114112 := by
  rcases c.valid with h | ⟨_, h2⟩
  · exact lt_trans h (by norm_num)
  · exact h2

lemma charToNat_inj {c₁ c₂ : Char} (h : c₁.toNat = c₂.toNat) : c₁ = c₂ := by
  apply Char.eq_of_val_eq
  unfold Char.toNat at h
  exact UInt32.toNat.inj h

lemma hexVal_hexDigit {n : Nat} (h : n < 16) : hexVal (hexDigit n) = some n := by
  interval_cases n <;> decide

lemma charUtf8_mem_lt {n b : Nat} (hn : n < 1114112) (hb : b ∈ charUtf8 n) :
    b < 256 := by
  unfold charUtf8 at hb
  split_ifs at hb <;> simp at hb <;> omega

lemma percentDec_esc (h1 h2 : Char) (r : List Char) :
    percentDec ('%' :: h1 :: h2 :: r) =
      match hexVal h1, hexVal h2 with
      | some a, some b => (percentDec r).map (fun l => (16 * a + b) :: l)
      | _, _ => none := rfl

lemma percentDec_cons {c : Char} (hc : c ≠ '%') (r : List Char) :
    percentDec (c :: r) = (percentDec r).map (fun l => c.toNat :: l) := by
  conv_lhs => rw [percentDec.eq_def]
  simp only [hc, if_false]

lemma percentDec_byteEsc {b : Nat} (hb : b < 256) (t : List Char) :
    percentDec (byteEsc b ++ t) = (percentDec t).map (fun l => b :: l) := by
  show percentDec ('%' :: hexDigit (b / 16) :: hexDigit (b % 16) :: t) = _
  rw [percentDec_esc, hexVal_hexDigit (show b / 16 < 16 by omega),
    hexVal_hexDigit (show b % 16 < 16 by omega)]
  show (percentDec t).map (fun l => (16 * (b / 16) + b % 16) :: l) = _
  rw [show 16 * (b / 16) + b % 16 = b from by omega]

lemma percentDec_byteFlat {bs : List Nat} (hb : ∀ b ∈ bs, b < 256)
    (t : List Char) :
    percentDec (bs.flatMap byteEsc ++ t) =
      (percentDec t).map (fun l => bs ++ l) := by
  induction bs with
  | nil =>
    simp only [List.flatMap_nil, List.nil_append]
    cases percentDec t <;> simp
  | cons b bs ih =>
    simp only [List.flatMap_cons, List.append_assoc]
    rw [percentDec_byteEsc (hb b (by simp)) _]
    rw [ih (fun x hx => hb x (by simp [hx]))]
    cases percentDec t <;> simp

lemma charUtf8_of_lt {n : Nat} (h : n < 128) : charUtf8 n = [n] := by
  unfold charUtf8
  rw [if_pos h]

lemma percentDec_encChar (c : Char) (t : List Char) :
    percentDec (encChar c ++ t) =
      (percentDec t).map (fun l => charUtf8 c.toNat ++ l) := by
  unfold encChar
  by_cases hu : uriUnreserved c.toNat = true
  · rw [if_pos hu]
    obtain ⟨hlt, hne, -⟩ := uriUnreserved_bound hu
    have hc : c ≠ '%' := by
      intro he
      subst he
      exact hne rfl
    show percentDec (c :: t) = _
    rw [percentDec_cons hc, charUtf8_of_lt hlt]
    exact rfl
  · rw [if_neg hu]
    exact percentDec_byteFlat (fun b hb => charUtf8_mem_lt (charToNat_lt c) hb) t

lemma percentDec_encode (l : List Char) :
    percentDec (encodeURIComponent l) =
      some ((l.map Char.toNat).flatMap charUtf8) := by
  induction l with
  | nil => rfl
  | cons c rest ih =>
    rw [encodeURIComponent, percentDec_encChar, ih]
    simp

lemma charUtf8_ne_nil (n : Nat) : charUtf8 n ≠ [] := by
  unfold charUtf8
  split_ifs <;> simp

lemma utf8DecOne_cons (b : Nat) (rest : List Nat) :
    utf8DecOne (b :: rest) =
      if b < 128 then some (b, rest)
      else if b < 192 then none
      else if b < 224 then
        match rest with
        | b2 :: r => some ((b - 192) * 64 + (b2 - 128), r)
        | _ => none
      else if b < 240 then
        match rest with
        | b2 :: b3 :: r =>
          some ((b - 224) * 4096 + (b2 - 128) * 64 + (b3 - 128), r)
        | _ => none
      else
        match rest with
        | b2 :: b3 :: b4 :: r =>
          some ((b - 240) * 262144 + (b2 - 128) * 4096 + (b3 - 128) * 64 +
            (b4 - 128), r)
        | _ => none := rfl

lemma utf8DecOne_charUtf8 {n : Nat} (hn : n < 1114112) (t : List Nat) :
    utf8DecOne (charUtf8 n ++ t) = some (n, t) := by
  unfold charUtf8
  by_cases h1 : n < 128
  · rw [if_pos h1]
    show utf8DecOne (n :: t) = _
    rw [utf8DecOne_cons, if_pos h1]
  · rw [if_neg h1]
    by_cases h2 : n < 2048
    · rw [if_pos h2]
      show utf8DecOne ((192 + n / 64) :: (128 + n % 64) :: t) = _
      rw [utf8DecOne_cons, if_neg (by omega), if_neg (by omega), if_pos (by omega)]
      show some ((192 + n / 64 - 192) * 64 + (128 + n % 64 - 128), t) = _
      rw [show (192 + n / 64 - 192) * 64 + (128 + n % 64 - 128) = n from by omega]
    · rw [if_neg h2]
      by_cases h3 : n < 65536
      · rw [if_pos h3]
        show utf8DecOne ((224 + n / 4096) :: (128 + n / 64 % 64) :: (128 + n % 64) :: t) = _
        rw [utf8DecOne_cons, if_neg (by omega), if_neg (by omega),
          if_neg (by omega), if_pos (by omega)]
        show some ((224 + n / 4096 - 224) * 4096 + (128 + n / 64 % 64 - 128) * 64 +
          (128 + n % 64 - 128), t) = _
        rw [show (224 + n / 4096 - 224) * 4096 + (128 + n / 64 % 64 - 128) * 64 +
          (128 + n % 64 - 128) = n from by omega]
      · rw [if_neg h3]
        show utf8DecOne ((240 + n / 262144) :: (128 + n / 4096 % 64) ::
          (128 + n / 64 % 64) :: (128 + n % 64) :: t) = _
        rw [utf8DecOne_cons, if_neg (by omega), if_neg (by omega),
          if_neg (by omega), if_neg (by omega)]
        show some ((240 + n / 262144 - 240) * 262144 + (128 + n / 4096 % 64 - 128) * 4096 +
          (128 + n / 64 % 64 - 128) * 64 + (128 + n % 64 - 128), t) = _
        rw [show (240 + n / 262144 - 240) * 262144 + (128 + n / 4096 % 64 - 128) * 4096 +
          (128 + n / 64 % 64 - 128) * 64 + (128 + n % 64 - 128) = n from by omega]

lemma utf8DecAux_nil (f : Nat) : utf8DecAux f [] = some [] := by
  cases f <;> rfl

lemma utf8DecAux_succ (f b : Nat) (rest : List Nat) :
    utf8DecAux (f + 1) (b :: rest) =
      match utf8DecOne (b :: rest) with
      | none => none
      | some (n, r) => (utf8DecAux f r).map (fun l => n :: l) := rfl

lemma utf8DecAux_flat (ns : List Nat) : ∀ (f : Nat), (∀ n ∈ ns, n < 1114112) →
    (ns.flatMap charUtf8).length ≤ f →
    utf8DecAux f (ns.flatMap charUtf8) = some ns := by
  induction ns with
  | nil =>
    intro f _ _
    exact utf8DecAux_nil f
  | cons n rest ih =>
    intro f hb hlen
    have hne := charUtf8_ne_nil n
    have hpos : 0 < (charUtf8 n).length := List.length_pos.mpr hne
    rw [List.flatMap_cons] at hlen ⊢
    rw [List.length_append] at hlen
    cases f with
    | zero => omega
    | succ f' =>
      obtain ⟨b, bs, hx⟩ : ∃ b bs, charUtf8 n = b :: bs := by
        cases h' : charUtf8 n with
        | nil => exact absurd h' hne
        | cons b bs => exact ⟨b, bs, rfl⟩
      rw [hx, List.cons_append, utf8DecAux_succ, ← List.cons_append, ← hx,
        utf8DecOne_charUtf8 (hb n (by simp)) _]
      show (utf8DecAux f' (rest.flatMap charUtf8)).map (fun l => n :: l) = _
      rw [ih f' (fun x hx => hb x (by simp [hx])) (by omega)]
      rfl

lemma utf8Dec_flat {ns : List Nat} (h : ∀ n ∈ ns, n < 1114112) :
    utf8Dec (ns.flatMap charUtf8) = some ns :=
  utf8DecAux_flat ns _ h le_rfl

lemma encodeURIComponent_inj {l₁ l₂ : List Char}
    (h : encodeURIComponent l₁ = encodeURIComponent l₂) : l₁ = l₂ := by
  have h1 := percentDec_encode l₁
  have h2 := percentDec_encode l₂
  rw [h, h2] at h1
  have hb : ∀ l : List Char, ∀ n ∈ l.map Char.toNat, n < 1114112 := by
    intro l n hn
    simp only [List.mem_map] at hn
    obtain ⟨c, _, rfl⟩ := hn
    exact charToNat_lt c
  have hd1 := utf8Dec_flat (hb l₁)
  have hd2 := utf8Dec_flat (hb l₂)
  have : l₁.map Char.toNat = l₂.map Char.toNat := by
    have := h1.symm
    rw [Option.some_inj] at this
    rw [this] at hd1
    rw [hd1] at hd2
    exact Option.some_inj.mp hd2
  exact List.map_injective_iff.mpr (fun a b hab => charToNat_inj hab) this

lemma append_slash_cancel :
    ∀ (a₁ a₂ r₁ r₂ : List Char), '/' ∉ a₁ → '/' ∉ a₂ →
      a₁ ++ '/' :: r₁ = a₂ ++ '/' :: r₂ → a₁ = a₂ ∧ r₁ = r₂ := by
  intro a₁
  induction a₁ with
  | nil =>
    intro a₂ r₁ r₂ _ h₂ h
    cases a₂ with
    | nil =>
      simp only [List.nil_append] at h
      exact ⟨rfl, List.cons.inj h |>.2⟩
    | cons c a₂' =>
      simp only [List.nil_append, List.cons_append] at h
      obtain ⟨hc, _⟩ := List.cons.inj h
      exact absurd (hc ▸ List.mem_cons_self c a₂') (fun hm => h₂ (hc ▸ hm))
  | cons c a₁' ih =>
    intro a₂ r₁ r₂ h₁ h₂ h
    cases a₂ with
    | nil =>
      simp only [List.nil_append, List.cons_append] at h
      obtain ⟨hc, _⟩ := List.cons.inj h
      exact absurd (List.mem_cons_self c a₁') (hc ▸ h₁)
    | cons d a₂' =>
      simp only [List.cons_append] at h
      obtain ⟨hc, htl⟩ := List.cons.inj h
      have h₁' : '/' ∉ a₁' := fun hm => h₁ (List.mem_cons_of_mem c hm)
      have h₂' : '/' ∉ a₂' := fun hm => h₂ (List.mem_cons_of_mem d hm)
      obtain ⟨ha, hr⟩ := ih a₂' r₁ r₂ h₁' h₂' htl
      exact ⟨by rw [hc, ha], hr⟩

lemma hexDigit_ne_slash {d : Nat} (h : d < 16) : hexDigit d ≠ '/' := by
  interval_cases d <;> decide

lemma slash_not_in_encode (l : List Char) : '/' ∉ encodeURIComponent l := by
  induction l with
  | nil => simp [encodeURIComponent]
  | cons c rest ih =>
    rw [encodeURIComponent]
    intro hm
    rcases List.mem_append.mp hm with hm | hm
    · unfold encChar at hm
      split_ifs at hm with hu
      · simp only [List.mem_singleton] at hm
        subst hm
        exact absurd (uriUnreserved_bound hu).2.2 (by decide)
      · simp only [List.mem_flatMap] at hm
        obtain ⟨b, hbmem, hb⟩ := hm
        have hb256 : b < 256 := charUtf8_mem_lt (charToNat_lt c) hbmem
        unfold byteEsc at hb
        simp only [List.mem_cons, List.not_mem_nil, or_false] at hb
        rcases hb with hb | hb | hb
        · exact absurd hb (by decide)
        · exact hexDigit_ne_slash (show b / 16 < 16 by omega) hb.symm
        · exact hexDigit_ne_slash (show b % 16 < 16 by omega) hb.symm
    · exact ih hm

lemma rawKey_inj {s₁ t₁ x₁ s₂ t₂ x₂ : String}
    (hs₁ : '/' ∉ s₁.data) (ht₁ : '/' ∉ t₁.data)
    (hs₂ : '/' ∉ s₂.data) (ht₂ : '/' ∉ t₂.data)
    (h : rawKey s₁ t₁ x₁ = rawKey s₂ t₂ x₂) :
    s₁ = s₂ ∧ t₁ = t₂ ∧ x₁ = x₂ := by
  unfold rawKey at h
  rw [List.append_assoc, List.append_assoc, List.append_assoc, List.append_assoc,
    List.append_assoc, List.append_assoc, List.append_assoc, List.append_assoc] at h
  have h' := List.append_cancel_left h
  simp only [List.singleton_append] at h'
  obtain ⟨hs, h''⟩ := append_slash_cancel _ _ _ _ hs₁ hs₂ h'
  obtain ⟨ht, h'''⟩ := append_slash_cancel _ _ _ _ ht₁ ht₂ h''
  have hx := encodeURIComponent_inj h'''
  refine ⟨?_, ?_, ?_⟩
  · cases s₁; cases s₂; exact congrArg String.mk (by simpa using hs)
  · cases t₁; cases t₂; exact congrArg String.mk (by simpa using ht)
  · cases x₁; cases x₂; exact congrArg String.mk (by simpa using hx)

/-! ## Helper lemmas: the URL normalization is the identity on plain keys -/

/-- Code points that the path state of the URL parser copies verbatim into
the current segment buffer: not a segment or state terminator and not in
the path percent-encode set. -/
def pathSafeB (n : Nat) : Bool :=
  n != 47 && n != 92 && n != 63 && n != 35 && !(inPathEncodeSet n)

/-- Code points of plain language codes: ASCII letters, digits, hyphen and
underscore. -/
def plainLangChar (n : Nat) : Bool :=
  (65 ≤ n && n ≤ 90) || (97 ≤ n && n ≤ 122) || (48 ≤ n && n ≤ 57) ||
  n == 45 || n == 95

lemma pathSafeB_spec {c : Char} (h : pathSafeB c.toNat = true) :
    ¬ (c = '/' ∨ c = '\\') ∧ c ≠ '?' ∧ c ≠ '#' ∧
    inPathEncodeSet c.toNat = false := by
  simp only [pathSafeB, Bool.and_eq_true, bne_iff_ne, Bool.not_eq_true'] at h
  obtain ⟨⟨⟨⟨h1, h2⟩, h3⟩, h4⟩, h5⟩ := h
  refine ⟨?_, ?_, ?_, h5⟩
  · rintro (he | he) <;> subst he
    · exact h1 (by decide)
    · exact h2 (by decide)
  · intro he
    subst he
    exact h3 (by decide)
  · intro he
    subst he
    exact h4 (by decide)

lemma isUrlStrip_false_of_gt {c : Char} (h : 32 < c.toNat) :
    isUrlStrip c = false := by
  simp only [isUrlStrip, Bool.or_eq_false_iff, decide_eq_false_iff_not]
  refine ⟨⟨?_, ?_⟩, ?_⟩
  · intro he
    have h9 := congrArg Char.toNat he
    rw [show (Char.ofNat 9).toNat = 9 from by decide] at h9
    omega
  · intro he
    have h10 := congrArg Char.toNat he
    rw [show (Char.ofNat 10).toNat = 10 from by decide] at h10
    omega
  · intro he
    have h13 := congrArg Char.toNat he
    rw [show (Char.ofNat 13).toNat = 13 from by decide] at h13
    omega

lemma plainLangChar_spec {n : Nat} (h : plainLangChar n = true) :
    pathSafeB n = true ∧ 32 < n ∧ n ≠ 46 ∧ n ≠ 37 ∧ n ≠ 47 := by
  simp only [plainLangChar, Bool.or_eq_true, Bool.and_eq_true, beq_iff_eq,
    decide_eq_true_eq] at h
  refine ⟨?_, by omega, by omega, by omega, by omega⟩
  simp only [pathSafeB, inPathEncodeSet, Bool.and_eq_true, bne_iff_ne,
    Bool.not_eq_true', Bool.or_eq_false_iff, beq_eq_false_iff_ne,
    decide_eq_false_iff_not]
  omega

lemma uriUnreserved_pathSafe {n : Nat} (h : uriUnreserved n = true) :
    pathSafeB n = true ∧ 32 < n := by
  simp only [uriUnreserved, Bool.or_eq_true, Bool.and_eq_true, beq_iff_eq,
    decide_eq_true_eq] at h
  constructor
  · simp only [pathSafeB, inPathEncodeSet, Bool.and_eq_true, bne_iff_ne,
      Bool.not_eq_true', Bool.or_eq_false_iff, beq_eq_false_iff_ne,
      decide_eq_false_iff_not]
    omega
  · omega

lemma hexDigit_pathSafe {d : Nat} (h : d < 16) :
    pathSafeB (hexDigit d).toNat = true ∧ 32 < (hexDigit d).toNat := by
  interval_cases d <;> exact ⟨by decide, by decide⟩

/-- Every character of an `encodeURIComponent` output is copied verbatim by
the path state: it is an unreserved character, a percent sign, or an
uppercase hexadecimal digit. -/
lemma enc_mem_safe {l : List Char} :
    ∀ c ∈ encodeURIComponent l, pathSafeB c.toNat = true ∧ 32 < c.toNat := by
  induction l with
  | nil => simp [encodeURIComponent]
  | cons c rest ih =>
    rw [encodeURIComponent]
    intro d hd
    rcases List.mem_append.mp hd with hm | hm
    · unfold encChar at hm
      split_ifs at hm with hu
      · simp only [List.mem_singleton] at hm
        subst hm
        exact uriUnreserved_pathSafe hu
      · simp only [List.mem_flatMap] at hm
        obtain ⟨b, hbmem, hb⟩ := hm
        have hb256 : b < 256 := charUtf8_mem_lt (charToNat_lt c) hbmem
        unfold byteEsc at hb
        simp only [List.mem_cons, List.not_mem_nil, or_false] at hb
        rcases hb with hb | hb | hb
        · subst hb
          exact ⟨by decide, by decide⟩
        · subst hb
          exact hexDigit_pathSafe (show b / 16 < 16 by omega)
        · subst hb
          exact hexDigit_pathSafe (show b % 16 < 16 by omega)
    · exact ih d hm

lemma urlWalk_nil (segs : List (List Char)) (buf : List Char) :
    urlWalk [] segs buf = (closeSeg segs buf false, none) := rfl

lemma urlWalk_cons (c : Char) (rest : List Char) (segs : List (List Char))
    (buf : List Char) :
    urlWalk (c :: rest) segs buf =
      if c = '/' ∨ c = '\\' then urlWalk rest (closeSeg segs buf true) []
      else if c = '?' then (closeSeg segs buf false, some (queryWalk rest))
      else if c = '#' then (closeSeg segs buf false, none)
      else urlWalk rest segs (buf ++ urlEncChar inPathEncodeSet c) := by
  rw [urlWalk]

lemma urlWalk_safeSeg {s : List Char} (hs : ∀ c ∈ s, pathSafeB c.toNat = true) :
    ∀ (rest : List Char) (segs : List (List Char)) (buf : List Char),
      urlWalk (s ++ rest) segs buf = urlWalk rest segs (buf ++ s) := by
  induction s with
  | nil =>
    intro rest segs buf
    simp
  | cons c s' ih =>
    intro rest segs buf
    obtain ⟨hns, hq, hh, hset⟩ := pathSafeB_spec (hs c (by simp))
    rw [List.cons_append, urlWalk_cons, if_neg hns, if_neg hq, if_neg hh,
      show urlEncChar inPathEncodeSet c = [c] from by simp [urlEncChar, hset],
      ih (fun d hd => hs d (by simp [hd]))]
    simp

lemma urlWalk_safeAll {s : List Char} (hs : ∀ c ∈ s, pathSafeB c.toNat = true) :
    ∀ (segs : List (List Char)) (buf : List Char),
      urlWalk s segs buf = (closeSeg segs (buf ++ s) false, none) := by
  induction s with
  | nil =>
    intro segs buf
    rw [List.append_nil]
    rfl
  | cons c s' ih =>
    intro segs buf
    obtain ⟨hns, hq, hh, hset⟩ := pathSafeB_spec (hs c (by simp))
    rw [urlWalk_cons, if_neg hns, if_neg hq, if_neg hh,
      show urlEncChar inPathEncodeSet c = [c] from by simp [urlEncChar, hset],
      ih (fun d hd => hs d (by simp [hd]))]
    simp

lemma isDotStr_mem {b : List Char} (h : isDotStr b = true) :
    '.' ∈ b ∨ '%' ∈ b := by
  simp only [isDotStr, Bool.or_eq_true, beq_iff_eq] at h
  rcases h with (rfl | rfl) | rfl <;> decide

lemma isDoubleDotStr_mem {b : List Char} (h : isDoubleDotStr b = true) :
    '.' ∈ b ∨ '%' ∈ b := by
  simp only [isDoubleDotStr, Bool.or_eq_true, beq_iff_eq] at h
  rcases h with
    (((((((rfl | rfl) | rfl) | rfl) | rfl) | rfl) | rfl) | rfl) | rfl <;> decide

lemma notDot_of_chars {b : List Char}
    (h : ∀ c ∈ b, c.toNat ≠ 46 ∧ c.toNat ≠ 37) :
    isDotStr b = false ∧ isDoubleDotStr b = false := by
  constructor
  · by_contra hb
    rw [Bool.not_eq_false] at hb
    rcases isDotStr_mem hb with hm | hm
    · exact (h _ hm).1 (by decide)
    · exact (h _ hm).2 (by decide)
  · by_contra hb
    rw [Bool.not_eq_false] at hb
    rcases isDoubleDotStr_mem hb with hm | hm
    · exact (h _ hm).1 (by decide)
    · exact (h _ hm).2 (by decide)

lemma closeSeg_plain {segs : List (List Char)} {b : List Char} {sl : Bool}
    (h1 : isDotStr b = false) (h2 : isDoubleDotStr b = false) :
    closeSeg segs b sl = segs ++ [b] := by
  simp [closeSeg, h1, h2]

lemma charUtf8_append_eq46 {n : Nat} {r bs : List Nat}
    (h : charUtf8 n ++ r = 46 :: bs) : n = 46 ∧ r = bs := by
  unfold charUtf8 at h
  split_ifs at h <;>
    simp only [List.singleton_append, List.cons_append, List.nil_append,
      List.cons.injEq] at h
  · exact ⟨h.1, h.2⟩
  · exact absurd h.1 (by omega)
  · exact absurd h.1 (by omega)
  · exact absurd h.1 (by omega)

lemma flat_eq_dot {l : List Char} :
    ((l.map Char.toNat).flatMap charUtf8 = [46] → l = ['.']) ∧
    ((l.map Char.toNat).flatMap charUtf8 = [46, 46] → l = ['.', '.']) := by
  cases l with
  | nil => simp
  | cons c1 rest1 =>
    cases rest1 with
    | nil =>
      simp only [List.map_cons, List.map_nil, List.flatMap_cons, List.flatMap_nil,
        List.append_nil]
      constructor
      · intro h
        obtain ⟨hn, -⟩ := charUtf8_append_eq46
          (show charUtf8 c1.toNat ++ [] = 46 :: [] from by rw [List.append_nil]; exact h)
        have hc : c1 = '.' := charToNat_inj (by rw [hn]; decide)
        rw [hc]
      · intro h
        obtain ⟨-, hr⟩ := charUtf8_append_eq46
          (show charUtf8 c1.toNat ++ [] = 46 :: [46] from by rw [List.append_nil]; exact h)
        simp at hr
    | cons c2 rest2 =>
      simp only [List.map_cons, List.flatMap_cons, List.append_assoc]
      constructor
      · intro h
        obtain ⟨-, h2⟩ := charUtf8_append_eq46 h
        exact absurd (List.append_eq_nil.mp h2).1 (charUtf8_ne_nil _)
      · intro h
        obtain ⟨h1, h2⟩ := charUtf8_append_eq46 h
        obtain ⟨h3, h4⟩ := charUtf8_append_eq46 h2
        cases rest2 with
        | nil =>
          have e1 : c1 = '.' := charToNat_inj (by rw [h1]; decide)
          have e2 : c2 = '.' := charToNat_inj (by rw [h3]; decide)
          rw [e1, e2]
        | cons c3 r3 =>
          rw [List.map_cons, List.flatMap_cons] at h4
          exact absurd (List.append_eq_nil.mp h4).1 (charUtf8_ne_nil _)

lemma enc_not_dotSeg {l : List Char} (h1 : l ≠ ['.']) (h2 : l ≠ ['.', '.']) :
    isDotStr (encodeURIComponent l) = false ∧
    isDoubleDotStr (encodeURIComponent l) = false := by
  have hpd := percentDec_encode l
  constructor
  · by_contra hb
    rw [Bool.not_eq_false] at hb
    simp only [isDotStr, Bool.or_eq_true, beq_iff_eq] at hb
    rcases hb with (he | he) | he
    · rw [he, show percentDec ".".data = some [46] from by decide] at hpd
      exact h1 (flat_eq_dot.1 (Option.some_inj.mp hpd.symm))
    · rw [he, show percentDec "%2e".data = none from by decide] at hpd
      exact Option.noConfusion hpd
    · rw [he, show percentDec "%2E".data = some [46] from by decide] at hpd
      exact h1 (flat_eq_dot.1 (Option.some_inj.mp hpd.symm))
  · by_contra hb
    rw [Bool.not_eq_false] at hb
    simp only [isDoubleDotStr, Bool.or_eq_true, beq_iff_eq] at hb
    rcases hb with
      (((((((he | he) | he) | he) | he) | he) | he) | he) | he
    · rw [he, show percentDec "..".data = some [46, 46] from by decide] at hpd
      exact h2 (flat_eq_dot.2 (Option.some_inj.mp hpd.symm))
    · rw [he, show percentDec ".%2e".data = none from by decide] at hpd
      exact Option.noConfusion hpd
    · rw [he, show percentDec ".%2E".data = some [46, 46] from by decide] at hpd
      exact h2 (flat_eq_dot.2 (Option.some_inj.mp hpd.symm))
    · rw [he, show percentDec "%2e.".data = none from by decide] at hpd
      exact Option.noConfusion hpd
    · rw [he, show percentDec "%2E.".data = some [46, 46] from by decide] at hpd
      exact h2 (flat_eq_dot.2 (Option.some_inj.mp hpd.symm))
    · rw [he, show percentDec "%2e%2e".data = none from by decide] at hpd
      exact Option.noConfusion hpd
    · rw [he, show percentDec "%2e%2E".data = none from by decide] at hpd
      exact Option.noConfusion hpd
    · rw [he, show percentDec "%2E%2e".data = none from by decide] at hpd
      exact Option.noConfusion hpd
    · rw [he, show percentDec "%2E%2E".data = some [46, 46] from by decide] at hpd
      exact h2 (flat_eq_dot.2 (Option.some_inj.mp hpd.symm))

lemma trimTrail_id {l : List Char} (h : ∀ c ∈ l, 32 < c.toNat) :
    trimTrail l = l := by
  unfold trimTrail
  cases hrev : l.reverse with
  | nil =>
    rw [List.reverse_eq_nil_iff] at hrev
    rw [hrev]
    rfl
  | cons c rest =>
    have hc : c ∈ l := by
      rw [← List.mem_reverse, hrev]
      simp
    rw [List.dropWhile_cons_of_neg
        (by simp only [decide_eq_true_eq]; have := h c hc; omega),
      ← hrev, List.reverse_reverse]

lemma urlStrip_id {l : List Char} (h : ∀ c ∈ l, 32 < c.toNat) :
    urlStrip l = l := by
  unfold urlStrip
  rw [List.filter_eq_self.mpr]
  intro a ha
  simp [isUrlStrip_false_of_gt (h a ha)]

lemma String_eq_of_data {a : String} {l : List Char} (h : a.data = l) :
    a = ⟨l⟩ := by
  cases a
  exact congrArg String.mk h

/-- On plain language codes and a text that is not a dot segment, the
WHATWG normalization of the key URL is the identity: the normalized cache
key equals the raw template string. -/
lemma cacheKey_plain_eq_raw {s t x : String}
    (hs : ∀ c ∈ s.data, plainLangChar c.toNat = true)
    (ht : ∀ c ∈ t.data, plainLangChar c.toNat = true)
    (hx1 : x ≠ ".") (hx2 : x ≠ "..") :
    cacheKey s t x = rawKey s t x := by
  have hsafeS : ∀ c ∈ s.data, pathSafeB c.toNat = true :=
    fun c hc => (plainLangChar_spec (hs c hc)).1
  have hsafeT : ∀ c ∈ t.data, pathSafeB c.toNat = true :=
    fun c hc => (plainLangChar_spec (ht c hc)).1
  have hsafeE : ∀ c ∈ encodeURIComponent x.data, pathSafeB c.toNat = true :=
    fun c hc => (enc_mem_safe c hc).1
  have hdS := notDot_of_chars (fun c hc =>
    ⟨(plainLangChar_spec (hs c hc)).2.2.1, (plainLangChar_spec (hs c hc)).2.2.2.1⟩)
  have hdT := notDot_of_chars (fun c hc =>
    ⟨(plainLangChar_spec (ht c hc)).2.2.1, (plainLangChar_spec (ht c hc)).2.2.2.1⟩)
  have hx1' : x.data ≠ ['.'] := fun hd =>
    hx1 ((String_eq_of_data hd).trans (by decide))
  have hx2' : x.data ≠ ['.', '.'] := fun hd =>
    hx2 ((String_eq_of_data hd).trans (by decide))
  have hdE := enc_not_dotSeg hx1' hx2'
  have hall : ∀ c ∈ s.data ++ ['/'] ++ t.data ++ ['/'] ++
      encodeURIComponent x.data, 32 < c.toNat := by
    intro c hc
    simp only [List.append_assoc, List.mem_append, List.mem_singleton,
      List.mem_cons, List.not_mem_nil, or_false] at hc
    rcases hc with hc | hc | hc | hc | hc
    · exact (plainLangChar_spec (hs c hc)).2.1
    · rw [hc]
      decide
    · exact (plainLangChar_spec (ht c hc)).2.1
    · rw [hc]
      decide
    · exact (enc_mem_safe c hc).2
  have hwalk : urlWalk (s.data ++ ('/' ::
      (t.data ++ ('/' :: encodeURIComponent x.data)))) [] [] =
      ([s.data, t.data, encodeURIComponent x.data], none) := by
    rw [urlWalk_safeSeg hsafeS, urlWalk_cons, if_pos (Or.inl rfl),
      urlWalk_safeSeg hsafeT, urlWalk_cons, if_pos (Or.inl rfl),
      urlWalk_safeAll hsafeE]
    simp only [List.nil_append]
    rw [closeSeg_plain hdS.1 hdS.2, closeSeg_plain hdT.1 hdT.2,
      closeSeg_plain hdE.1 hdE.2]
    simp
  have hassoc : s.data ++ ['/'] ++ t.data ++ ['/'] ++ encodeURIComponent x.data =
      s.data ++ ('/' :: (t.data ++ ('/' :: encodeURIComponent x.data))) := by
    simp
  simp only [cacheKey, requestUrlNorm]
  rw [trimTrail_id hall, urlStrip_id hall, hassoc, hwalk]
  simp only [rawKey]
  simp [serializeSegs]

/-! ## Helper lemmas: replaceFirst rewrites exactly the first occurrence -/

lemma isPrefixOf_iff (p : List Char) :
    ∀ s : List Char, p.isPrefixOf s = true ↔ ∃ t, s = p ++ t := by
  induction p with
  | nil =>
    intro s
    simp [List.isPrefixOf]
  | cons a p' ih =>
    intro s
    cases s with
    | nil =>
      simp [List.isPrefixOf]
    | cons b s' =>
      simp only [List.isPrefixOf, Bool.and_eq_true, beq_iff_eq, List.cons_append,
        List.cons.injEq]
      rw [ih s']
      constructor
      · rintro ⟨rfl, t, rfl⟩
        exact ⟨t, rfl, rfl⟩
      · rintro ⟨t, rfl, rfl⟩
        exact ⟨rfl, t, rfl⟩

lemma replaceFirst_no_occ {pat : List Char} (hpat : pat ≠ []) (rep : List Char) :
    ∀ s : List Char, (∀ A B, s ≠ A ++ (pat ++ B)) → replaceFirst s pat rep = s := by
  intro s
  induction s with
  | nil =>
    intro _
    have hnp : ¬ pat.isPrefixOf ([] : List Char) = true := by
      rw [isPrefixOf_iff]
      rintro ⟨t, ht⟩
      cases pat with
      | nil => exact hpat rfl
      | cons a p' => simp at ht
    rw [replaceFirst.eq_def, if_neg hnp]
  | cons c rest ih =>
    intro hno
    have hnp : ¬ pat.isPrefixOf (c :: rest) = true := by
      rw [isPrefixOf_iff]
      rintro ⟨t, ht⟩
      exact hno [] t (by rw [ht]; simp)
    rw [replaceFirst.eq_def, if_neg hnp]
    show c :: replaceFirst rest pat rep = c :: rest
    rw [ih (fun A B hAB => hno (c :: A) B (by rw [hAB, List.cons_append]))]

lemma replaceFirst_first_occ {pat : List Char} (rep : List Char) :
    ∀ (A B : List Char),
      (∀ A' B', A ++ (pat ++ B) = A' ++ (pat ++ B') → A.length ≤ A'.length) →
      replaceFirst (A ++ (pat ++ B)) pat rep = A ++ (rep ++ B) := by
  intro A
  induction A with
  | nil =>
    intro B _
    simp only [List.nil_append]
    rw [replaceFirst.eq_def, if_pos (by rw [isPrefixOf_iff]; exact ⟨B, rfl⟩)]
    congr 1
    exact List.drop_left pat B
  | cons c A' ih =>
    intro B hmin
    rw [List.cons_append]
    have hnp : ¬ pat.isPrefixOf (c :: (A' ++ (pat ++ B))) = true := by
      rw [isPrefixOf_iff]
      rintro ⟨t, ht⟩
      have h0 := hmin [] t (by rw [List.nil_append, ← ht, List.cons_append])
      simp at h0
    rw [replaceFirst.eq_def, if_neg hnp]
    show c :: replaceFirst (A' ++ (pat ++ B)) pat rep = (c :: A') ++ (rep ++ B)
    have hmin' : ∀ A'' B'', A' ++ (pat ++ B) = A'' ++ (pat ++ B'') →
        A'.length ≤ A''.length := by
      intro A'' B'' hAB
      have h1 := hmin (c :: A'') B''
        (by rw [List.cons_append, hAB, ← List.cons_append])
      simpa using h1
    rw [ih B hmin', List.cons_append]

/-! ## Helper lemmas: evaluation of the dispatcher branches -/

lemma translateEval_hit {sourceLang targetLang translateText dlSession : String}
    {st : CacheState} {env : Env} {resp : BackendResp} {r : TransResult}
    (hx : translateText ≠ "")
    (hm : cacheMatch st
      (cacheKey (finalSource sourceLang) (finalTarget targetLang) translateText) = some r) :
    deeplxTranslate sourceLang targetLang translateText dlSession true st env resp =
      { result := { r with cached := true }
        state := st
        trace := { lookedUp := true, calledBackend := false, stored := false } } := by
  simp only [deeplxTranslate, if_true]
  rw [if_neg hx, hm]

lemma cacheScrutinee_none {sourceLang targetLang translateText : String}
    {st : CacheState} {useCache : Bool}
    (hmiss : useCache = false ∨ cacheMatch st
      (cacheKey (finalSource sourceLang) (finalTarget targetLang) translateText) = none) :
    (if useCache then cacheMatch st
      (cacheKey (finalSource sourceLang) (finalTarget targetLang) translateText)
     else none) = none := by
  rcases hmiss with h | h
  · rw [h]
    rfl
  · cases useCache
    · rfl
    · simpa using h

lemma translateEval_429 {sourceLang targetLang translateText dlSession : String}
    {useCache : Bool} {st : CacheState} {env : Env} {resp : BackendResp}
    (hx : translateText ≠ "")
    (hmiss : useCache = false ∨ cacheMatch st
      (cacheKey (finalSource sourceLang) (finalTarget targetLang) translateText) = none)
    (h429 : resp.status = 429) :
    deeplxTranslate sourceLang targetLang translateText dlSession useCache st env resp =
      { result :=
          { code := 429
            message := some "Too many requests, your IP has been blocked by DeepL temporarily."
            cached := false }
        state := st
        trace := { lookedUp := useCache, calledBackend := true, stored := false } } := by
  simp only [deeplxTranslate]
  rw [if_neg hx, cacheScrutinee_none hmiss, if_pos h429]

lemma translateEval_httpErr {sourceLang targetLang translateText dlSession : String}
    {useCache : Bool} {st : CacheState} {env : Env} {resp : BackendResp}
    (hx : translateText ≠ "")
    (hmiss : useCache = false ∨ cacheMatch st
      (cacheKey (finalSource sourceLang) (finalTarget targetLang) translateText) = none)
    (h429 : resp.status ≠ 429)
    (hok : ¬ (200 ≤ resp.status ∧ resp.status ≤ 299)) :
    deeplxTranslate sourceLang targetLang translateText dlSession useCache st env resp =
      { result :=
          { code := resp.status
            message := some ("DeepL API error: " ++ resp.errorText)
            cached := false }
        state := st
        trace := { lookedUp := useCache, calledBackend := true, stored := false } } := by
  simp only [deeplxTranslate]
  rw [if_neg hx, cacheScrutinee_none hmiss, if_neg h429, if_pos hok]

lemma translateEval_apiErr {sourceLang targetLang translateText dlSession : String}
    {useCache : Bool} {st : CacheState} {env : Env} {resp : BackendResp} {m : String}
    (hx : translateText ≠ "")
    (hmiss : useCache = false ∨ cacheMatch st
      (cacheKey (finalSource sourceLang) (finalTarget targetLang) translateText) = none)
    (hok : 200 ≤ resp.status ∧ resp.status ≤ 299)
    (herr : resp.error = some m) :
    deeplxTranslate sourceLang targetLang translateText dlSession useCache st env resp =
      { result :=
          { code := 500
            message := some ("DeepL API returned an error: " ++ m)
            cached := false }
        state := st
        trace := { lookedUp := useCache, calledBackend := true, stored := false } } := by
  simp only [deeplxTranslate]
  rw [if_neg hx, cacheScrutinee_none hmiss, if_neg (show ¬ resp.status = 429 by omega),
    if_neg (show ¬ ¬ (200 ≤ resp.status ∧ resp.status ≤ 299) from not_not.mpr hok),
    herr]

lemma translateEval_noTexts {sourceLang targetLang translateText dlSession : String}
    {useCache : Bool} {st : CacheState} {env : Env} {resp : BackendResp}
    (hx : translateText ≠ "")
    (hmiss : useCache = false ∨ cacheMatch st
      (cacheKey (finalSource sourceLang) (finalTarget targetLang) translateText) = none)
    (hok : 200 ≤ resp.status ∧ resp.status ≤ 299)
    (herr : resp.error = none)
    (hts : resp.result = none ∨
      ∃ ro, resp.result = some ro ∧ (ro.texts = none ∨ ro.texts = some [])) :
    deeplxTranslate sourceLang targetLang translateText dlSession useCache st env resp =
      { result :=
          { code := 500
            message := some "Translation failed, no text returned."
            cached := false }
        state := st
        trace := { lookedUp := useCache, calledBackend := true, stored := false } } := by
  simp only [deeplxTranslate]
  rw [if_neg hx, cacheScrutinee_none hmiss]
  rcases hts with h | ⟨ro, hres, h | h⟩
  · simp only [if_neg (show ¬ resp.status = 429 from by omega),
      if_neg (show ¬ ¬ (200 ≤ resp.status ∧ resp.status ≤ 299) from not_not.mpr hok),
      herr, h]
  · simp only [if_neg (show ¬ resp.status = 429 from by omega),
      if_neg (show ¬ ¬ (200 ≤ resp.status ∧ resp.status ≤ 299) from not_not.mpr hok),
      herr, hres, h]
  · simp only [if_neg (show ¬ resp.status = 429 from by omega),
      if_neg (show ¬ ¬ (200 ≤ resp.status ∧ resp.status ≤ 299) from not_not.mpr hok),
      herr, hres, h]

lemma translateEval_success {sourceLang targetLang translateText dlSession : String}
    {useCache : Bool} {st : CacheState} {env : Env} {resp : BackendResp}
    {ro : ResultObj} {t0 : TextItem} {rest : List TextItem}
    (hx : translateText ≠ "")
    (hmiss : useCache = false ∨ cacheMatch st
      (cacheKey (finalSource sourceLang) (finalTarget targetLang) translateText) = none)
    (hok : 200 ≤ resp.status ∧ resp.status ≤ 299)
    (herr : resp.error = none)
    (hres : resp.result = some ro)
    (hts : ro.texts = some (t0 :: rest)) :
    deeplxTranslate sourceLang targetLang translateText dlSession useCache st env resp =
      { result :=
          { code := 200
            id := some (getRandomNumber env.rand)
            data := some t0.text
            alternatives := some (match t0.alternatives with
              | some l => l.map Alt.text
              | none => [])
            source_lang := some ro.lang
            target_lang := some (finalTarget targetLang)
            method := some (if dlSession ≠ "" then "Pro" else "Free")
            cached := false }
        state := if useCache then
            cachePut st
              (cacheKey (finalSource sourceLang) (finalTarget targetLang) translateText)
              { code := 200
                id := some (getRandomNumber env.rand)
                data := some t0.text
                alternatives := some (match t0.alternatives with
                  | some l => l.map Alt.text
                  | none => [])
                source_lang := some ro.lang
                target_lang := some (finalTarget targetLang)
                method := some (if dlSession ≠ "" then "Pro" else "Free")
                cached := false }
          else st
        trace := { lookedUp := useCache, calledBackend := true, stored := useCache } } := by
  simp only [deeplxTranslate]
  rw [if_neg hx, cacheScrutinee_none hmiss]
  simp only [if_neg (show ¬ resp.status = 429 from by omega),
    if_neg (show ¬ ¬ (200 ≤ resp.status ∧ resp.status ≤ 299) from not_not.mpr hok),
    herr, hres, hts]

lemma cacheMatch_put_self (st : CacheState) (k : List Char) (v : TransResult) :
    cacheMatch (cachePut st k v) k = some v := by
  simp [cachePut, cacheMatch]

/-! ## Claim theorems -/

/-- C2: for every call to translate with an empty (or absent, both being
falsy) text argument, the result has statusCode 400, message exactly
"No text to translate.", cacheHit false, and no backend call and no cache
lookup or store occur in that call (the state is unchanged and the whole
effect trace is empty). -/
theorem claim2_empty_text (sourceLang targetLang dlSession : String)
    (useCache : Bool) (st : CacheState) (env : Env) (resp : BackendResp) :
    deeplxTranslate sourceLang targetLang "" dlSession useCache st env resp =
      { result := { code := 400, message := some "No text to translate.", cached := false }
        state := st
        trace := { lookedUp := false, calledBackend := false, stored := false } } := rfl

/-- C7: deriveTimestamp (getTimeStamp) returns the current time unchanged on
marker count 0, and for every positive marker count m it returns
ts - (ts mod (m+1)) + (m+1), a value congruent to 0 modulo m + 1. -/
theorem claim7_timestamp (nowMs : Nat) :
    getTimeStamp nowMs 0 = nowMs ∧
    ∀ markerCount : Nat, 0 < markerCount →
      getTimeStamp nowMs markerCount =
        nowMs - nowMs % (markerCount + 1) + (markerCount + 1) ∧
      getTimeStamp nowMs markerCount % (markerCount + 1) = 0 := by
  refine ⟨rfl, ?_⟩
  intro m hm
  have hne : m ≠ 0 := by omega
  have heq : getTimeStamp nowMs m = nowMs - nowMs % (m + 1) + (m + 1) := by
    simp [getTimeStamp, hne]
  refine ⟨heq, ?_⟩
  rw [heq]
  have hd : nowMs - nowMs % (m + 1) = (m + 1) * (nowMs / (m + 1)) := by
    have := Nat.div_add_mod nowMs (m + 1)
    omega
  rw [hd, ← Nat.mul_succ]
  exact Nat.mul_mod_right _ _

/-- C7 witness: the theorem applied at nowMs = 1000 and markerCount = 3,
with the concrete evaluation getTimeStamp 1000 3 = 1004. -/
theorem claim7_witness :
    getTimeStamp 1000 0 = 1000 ∧ 0 < 3 ∧
    getTimeStamp 1000 3 = 1000 - 1000 % 4 + 4 ∧
    getTimeStamp 1000 3 % 4 = 0 ∧ getTimeStamp 1000 3 = 1004 := by
  refine ⟨(claim7_timestamp 1000).1, by decide,
    ((claim7_timestamp 1000).2 3 (by decide)).1,
    ((claim7_timestamp 1000).2 3 (by decide)).2, by decide⟩

/-- C9 counterexample: the claim says every value k * 1000 with k in
[100000, 199999] is a possible output, but 199999 * 1000 is not reachable:
Math.floor(r * 99999) is at most 99998 for r < 1, so the maximum output is
199998000. -/
theorem claim9_counterexample :
    ¬ ∃ r : ℚ, 0 ≤ r ∧ r < 1 ∧ getRandomNumber r = 199999000 := by
  rintro ⟨r, h0, h1, he⟩
  have hf1 : ⌊r * 99999⌋ < 99999 := by
    apply Int.floor_lt.mpr
    push_cast
    nlinarith
  unfold getRandomNumber at he
  omega

/-- C9 (amended): for every random-source value r in [0, 1),
getRandomNumber r is a positive integer divisible by 1000, lying in
[100000000, 199998000] (that is, k * 1000 with k in [100000, 199998], not
[100000, 199999] as claimed), and every such k * 1000 is a possible
output. -/
theorem claim9_random_amended (r : ℚ) (h0 : 0 ≤ r) (h1 : r < 1) :
    100000000 ≤ getRandomNumber r ∧
    getRandomNumber r ≤ 199998000 ∧
    0 < getRandomNumber r ∧
    (1000 : ℤ) ∣ getRandomNumber r ∧
    ∀ k : ℤ, 100000 ≤ k → k ≤ 199998 →
      ∃ r' : ℚ, 0 ≤ r' ∧ r' < 1 ∧ getRandomNumber r' = k * 1000 := by
  have hf0 : 0 ≤ ⌊r * 99999⌋ := Int.floor_nonneg.mpr (by positivity)
  have hf1 : ⌊r * 99999⌋ < 99999 := by
    apply Int.floor_lt.mpr
    push_cast
    nlinarith
  unfold getRandomNumber
  refine ⟨by omega, by omega, by omega, ⟨⌊r * 99999⌋ + 100000, by ring⟩, ?_⟩
  intro k hk1 hk2
  refine ⟨((k : ℚ) - 100000) / 99999, ?_, ?_, ?_⟩
  · apply div_nonneg
    · have : (100000 : ℚ) ≤ (k : ℚ) := by exact_mod_cast hk1
      linarith
    · norm_num
  · rw [div_lt_one (by norm_num)]
    have : (k : ℚ) ≤ 199998 := by exact_mod_cast hk2
    linarith
  · rw [div_mul_cancel₀ _ (by norm_num : (99999 : ℚ) ≠ 0)]
    rw [show ((k : ℚ) - 100000) = ((k - 100000 : ℤ) : ℚ) from by push_cast; ring]
    rw [Int.floor_intCast]
    ring

/-- C9 witness: the amended theorem applied at r = 0, with the concrete
evaluation getRandomNumber 0 = 100000000, and reachability of
150000 * 1000. -/
theorem claim9_witness :
    (0 : ℚ) ≤ 0 ∧ (0 : ℚ) < 1 ∧ getRandomNumber 0 = 100000000 ∧
    (∃ r' : ℚ, 0 ≤ r' ∧ r' < 1 ∧ getRandomNumber r' = 150000 * 1000) := by
  have h := claim9_random_amended 0 le_rfl (by norm_num)
  refine ⟨le_rfl, by norm_num, ?_, h.2.2.2.2 150000 (by norm_num) (by norm_num)⟩
  unfold getRandomNumber
  norm_num

/-- C3 counterexample: the source-language comparison with auto is
case-sensitive in the code, so "AUTO" and "Auto" do not normalize to "EN"
as the claim states; they normalize to their uppercased selves. -/
theorem claim3_counterexample :
    finalSource "AUTO" = "AUTO" ∧ finalSource "Auto" = "AUTO" ∧
    finalSource "AUTO" ≠ "EN" := by
  refine ⟨by decide, by decide, by decide⟩

/-- C3 (amended): the normalized source language equals "EN" when
sourceLang is absent/empty or is exactly the lowercase string "auto", and
equals the uppercased sourceLang otherwise (so "AUTO" and "Auto" normalize
to "AUTO"); the normalized target language always equals the uppercased
targetLang. -/
theorem claim3_normalization_amended (s t : String) :
    (s = "" ∨ s = "auto" → finalSource s = "EN") ∧
    (s ≠ "" → s ≠ "auto" → finalSource s = toUpperStr s) ∧
    finalTarget t = toUpperStr t := by
  refine ⟨?_, ?_, rfl⟩
  · intro h
    unfold finalSource
    rw [if_pos h]
  · intro h1 h2
    unfold finalSource
    rw [if_neg (by tauto)]

/-- C3 witness: the amended theorem applied at s = "" and s = "fr",
t = "ja", with concrete evaluations. -/
theorem claim3_witness :
    finalSource "" = "EN" ∧
    ("fr" : String) ≠ "" ∧ ("fr" : String) ≠ "auto" ∧
    finalSource "fr" = toUpperStr "fr" ∧ finalSource "fr" = "FR" ∧
    finalTarget "ja" = "JA" := by
  refine ⟨(claim3_normalization_amended "" "ja").1 (Or.inl rfl), by decide, by decide,
    (claim3_normalization_amended "fr" "ja").2.1 (by decide) (by decide), by decide,
    by decide⟩

/-- C4: evaluation of the fetch gate at the failing input.  With no TOKEN
configured (env.TOKEN undefined, isPrivate false), a request to
/v1/translate or /v2/translate carrying a query token is still blocked with
401 by the middleware, because the missing parentheses on line 388 make
isPrivate guard only the /translate prefix; the same request to /translate
does reach the dispatcher.  The code contradicts its own comment
(apply auth middleware only for private mode) and the spec. -/
theorem claim4_auth_gate_bug :
    isPrivate none = false ∧
    fetchAuthBlocks none "/v1/translate" (some "sometoken") none = true ∧
    fetchAuthBlocks none "/v2/translate" (some "sometoken") none = true ∧
    fetchAuthBlocks none "/translate" (some "sometoken") none = false := by
  refine ⟨rfl, by decide, by decide, by decide⟩

/-- C1: for every translation request whose backend call returns a 2xx
response with no error object and a non-empty text-results list, translate
returns statusCode 200, requestId equal to the derived request id,
translatedText equal to the first result text, alternatives equal to the
first result alternative texts (empty list if absent), detected source
language as reported, targetLang equal to the normalized target language,
cacheHit false, and method "Pro" exactly when the session credential is
non-empty, "Free" otherwise. -/
theorem claim1_translate_success (sourceLang targetLang translateText dlSession : String)
    (useCache : Bool) (st : CacheState) (env : Env) (resp : BackendResp)
    (ro : ResultObj) (t0 : TextItem) (rest : List TextItem)
    (hx : translateText ≠ "")
    (hmiss : useCache = false ∨ cacheMatch st
      (cacheKey (finalSource sourceLang) (finalTarget targetLang) translateText) = none)
    (hok : 200 ≤ resp.status ∧ resp.status ≤ 299)
    (herr : resp.error = none)
    (hres : resp.result = some ro)
    (hts : ro.texts = some (t0 :: rest)) :
    (deeplxTranslate sourceLang targetLang translateText dlSession useCache st env resp).result =
      { code := 200
        id := some (getRandomNumber env.rand)
        data := some t0.text
        alternatives := some (match t0.alternatives with
          | some l => l.map Alt.text
          | none => [])
        source_lang := some ro.lang
        target_lang := some (finalTarget targetLang)
        method := some (if dlSession ≠ "" then "Pro" else "Free")
        cached := false } := by
  rw [translateEval_success hx hmiss hok herr hres hts]

/-- C1 witness: the theorem applied at a concrete successful request,
with the result evaluated. -/
theorem claim1_witness :
    ("hello" : String) ≠ "" ∧
    (deeplxTranslate "en" "es" "hello" "" true [] ⟨0, 0⟩
      { status := 200
        errorText := ""
        error := none
        result := some { texts := some [{ text := "hola"
                                          alternatives := some [{ text := "salut" }] }]
                         lang := "EN" } }).result =
      { code := 200
        id := some 100000000
        data := some "hola"
        alternatives := some ["salut"]
        source_lang := some "EN"
        target_lang := some "ES"
        method := some "Free"
        cached := false } := by
  refine ⟨by decide, ?_⟩
  have h := claim1_translate_success "en" "es" "hello" "" true [] ⟨0, 0⟩
    { status := 200
      errorText := ""
      error := none
      result := some { texts := some [{ text := "hola", alternatives := some [{ text := "salut" }] }]
                       lang := "EN" } }
    { texts := some [{ text := "hola", alternatives := some [{ text := "salut" }] }]
      lang := "EN" }
    { text := "hola", alternatives := some [{ text := "salut" }] } []
    (by decide) (Or.inr rfl) (by decide) rfl rfl rfl
  rw [h]
  rw [show ({ rand := 0, nowMs := 0 } : Env).rand = (0 : ℚ) from rfl]
  rw [show getRandomNumber (0 : ℚ) = 100000000 from by norm_num [getRandomNumber]]
  decide

/-- C10: for every translation request whose backend call does not reach
the success branch (429, other non-2xx, 2xx with error object, or 2xx with
an empty or absent text-results list), translate returns cacheHit false
with the prescribed status code (429, the backend status, 500, 500), the
cache state is unchanged, no store is scheduled, and a subsequent lookup of
the same key still misses. -/
theorem claim10_error_branches (sourceLang targetLang translateText dlSession : String)
    (useCache : Bool) (st : CacheState) (env : Env) (resp : BackendResp)
    (hx : translateText ≠ "")
    (hmiss : useCache = false ∨ cacheMatch st
      (cacheKey (finalSource sourceLang) (finalTarget targetLang) translateText) = none)
    (hfail : ¬ ((200 ≤ resp.status ∧ resp.status ≤ 299) ∧ resp.error = none ∧
      ∃ ro t0 rest, resp.result = some ro ∧ ro.texts = some (t0 :: rest))) :
    (deeplxTranslate sourceLang targetLang translateText dlSession useCache st env resp).result.cached = false ∧
    (deeplxTranslate sourceLang targetLang translateText dlSession useCache st env resp).state = st ∧
    (deeplxTranslate sourceLang targetLang translateText dlSession useCache st env resp).trace.stored = false ∧
    (deeplxTranslate sourceLang targetLang translateText dlSession useCache st env resp).result.code =
      (if resp.status = 429 then 429
       else if ¬ (200 ≤ resp.status ∧ resp.status ≤ 299) then resp.status
       else 500) ∧
    (cacheMatch st (cacheKey (finalSource sourceLang) (finalTarget targetLang) translateText) = none →
      cacheMatch (deeplxTranslate sourceLang targetLang translateText dlSession useCache st env resp).state
        (cacheKey (finalSource sourceLang) (finalTarget targetLang) translateText) = none) := by
  by_cases h429 : resp.status = 429
  · rw [translateEval_429 hx hmiss h429]
    refine ⟨rfl, rfl, rfl, ?_, fun h => h⟩
    rw [if_pos h429]
  · by_cases hok : 200 ≤ resp.status ∧ resp.status ≤ 299
    · cases herr : resp.error with
      | some m =>
        rw [translateEval_apiErr hx hmiss hok herr]
        refine ⟨rfl, rfl, rfl, ?_, fun h => h⟩
        rw [if_neg h429, if_neg (not_not.mpr hok)]
      | none =>
        have hts : resp.result = none ∨
            ∃ ro, resp.result = some ro ∧ (ro.texts = none ∨ ro.texts = some []) := by
          cases hres : resp.result with
          | none => exact Or.inl rfl
          | some ro =>
            cases hro : ro.texts with
            | none => exact Or.inr ⟨ro, rfl, Or.inl hro⟩
            | some ts =>
              cases ts with
              | nil => exact Or.inr ⟨ro, rfl, Or.inr hro⟩
              | cons t0 rest => exact absurd ⟨hok, herr, ro, t0, rest, hres, hro⟩ hfail
        rw [translateEval_noTexts hx hmiss hok herr hts]
        refine ⟨rfl, rfl, rfl, ?_, fun h => h⟩
        rw [if_neg h429, if_neg (not_not.mpr hok)]
    · rw [translateEval_httpErr hx hmiss h429 hok]
      refine ⟨rfl, rfl, rfl, ?_, fun h => h⟩
      rw [if_neg h429, if_pos hok]

/-- C10 witness: the theorem applied at a concrete backend 429 response,
with the status code evaluated and the cache state unchanged. -/
theorem claim10_witness :
    (deeplxTranslate "en" "ja" "hi" "" true [] ⟨0, 0⟩
      { status := 429, errorText := "", error := none, result := none }).result.code = 429 ∧
    (deeplxTranslate "en" "ja" "hi" "" true [] ⟨0, 0⟩
      { status := 429, errorText := "", error := none, result := none }).result.cached = false ∧
    (deeplxTranslate "en" "ja" "hi" "" true [] ⟨0, 0⟩
      { status := 429, errorText := "", error := none, result := none }).state = [] := by
  have h := claim10_error_branches "en" "ja" "hi" "" true [] ⟨0, 0⟩
    { status := 429, errorText := "", error := none, result := none }
    (by decide) (Or.inr rfl)
    (fun hc => absurd hc.1.2 (by decide))
  refine ⟨?_, h.1, h.2.1⟩
  rw [h.2.2.2.1]
  rfl

/-- C6: calling translate twice with useCache true and identical arguments,
where the first call returns statusCode 200 and its cache store has been
applied to the state, yields on the second call cacheHit true and a
translatedText identical to the first call result, with the backend call
and the store both skipped on the second call. -/
theorem claim6_idempotent (sourceLang targetLang translateText dlSession : String)
    (st : CacheState) (env₁ env₂ : Env) (resp₁ resp₂ : BackendResp)
    (h200 : (deeplxTranslate sourceLang targetLang translateText dlSession true st env₁ resp₁).result.code = 200) :
    (deeplxTranslate sourceLang targetLang translateText dlSession true
      (deeplxTranslate sourceLang targetLang translateText dlSession true st env₁ resp₁).state
      env₂ resp₂).result.cached = true ∧
    (deeplxTranslate sourceLang targetLang translateText dlSession true
      (deeplxTranslate sourceLang targetLang translateText dlSession true st env₁ resp₁).state
      env₂ resp₂).result.data =
      (deeplxTranslate sourceLang targetLang translateText dlSession true st env₁ resp₁).result.data ∧
    (deeplxTranslate sourceLang targetLang translateText dlSession true
      (deeplxTranslate sourceLang targetLang translateText dlSession true st env₁ resp₁).state
      env₂ resp₂).trace.calledBackend = false ∧
    (deeplxTranslate sourceLang targetLang translateText dlSession true
      (deeplxTranslate sourceLang targetLang translateText dlSession true st env₁ resp₁).state
      env₂ resp₂).trace.stored = false := by
  by_cases hx : translateText = ""
  · subst hx
    have h400 : (deeplxTranslate sourceLang targetLang "" dlSession true st env₁ resp₁).result.code = 400 := rfl
    rw [h400] at h200
    omega
  · cases hm : cacheMatch st
        (cacheKey (finalSource sourceLang) (finalTarget targetLang) translateText) with
    | some r =>
      rw [translateEval_hit hx hm]
      rw [translateEval_hit hx hm]
      exact ⟨rfl, rfl, rfl, rfl⟩
    | none =>
      by_cases h429 : resp₁.status = 429
      · rw [translateEval_429 hx (Or.inr hm) h429] at h200
        exact absurd (show (429 : Nat) = 200 from h200) (by decide)
      · by_cases hok : 200 ≤ resp₁.status ∧ resp₁.status ≤ 299
        · cases herr : resp₁.error with
          | some m =>
            rw [translateEval_apiErr hx (Or.inr hm) hok herr] at h200
            exact absurd (show (500 : Nat) = 200 from h200) (by decide)
          | none =>
            cases hres : resp₁.result with
            | none =>
              rw [translateEval_noTexts hx (Or.inr hm) hok herr (Or.inl hres)] at h200
              exact absurd (show (500 : Nat) = 200 from h200) (by decide)
            | some ro =>
              cases hro : ro.texts with
              | none =>
                rw [translateEval_noTexts hx (Or.inr hm) hok herr
                  (Or.inr ⟨ro, hres, Or.inl hro⟩)] at h200
                exact absurd (show (500 : Nat) = 200 from h200) (by decide)
              | some ts =>
                cases ts with
                | nil =>
                  rw [translateEval_noTexts hx (Or.inr hm) hok herr
                    (Or.inr ⟨ro, hres, Or.inr hro⟩)] at h200
                  exact absurd (show (500 : Nat) = 200 from h200) (by decide)
                | cons t0 rest =>
                  rw [translateEval_success hx (Or.inr hm) hok herr hres hro]
                  simp only [eq_self_iff_true, if_true]
                  rw [translateEval_hit hx (cacheMatch_put_self _ _ _)]
                  exact ⟨rfl, rfl, rfl, rfl⟩
        · rw [translateEval_httpErr hx (Or.inr hm) h429 hok] at h200
          have hst : resp₁.status = 200 := h200
          exact absurd hok (by omega)

/-- C6 witness: the theorem applied at a concrete successful first call on
an empty cache; the second call, with a failing backend response, is served
from the cache. -/
theorem claim6_witness :
    (deeplxTranslate "en" "es" "hello" "" true [] ⟨0, 0⟩
      { status := 200
        errorText := ""
        error := none
        result := some { texts := some [{ text := "hola", alternatives := none }]
                         lang := "EN" } }).result.code = 200 ∧
    (deeplxTranslate "en" "es" "hello" "" true
      (deeplxTranslate "en" "es" "hello" "" true [] ⟨0, 0⟩
        { status := 200
          errorText := ""
          error := none
          result := some { texts := some [{ text := "hola", alternatives := none }]
                           lang := "EN" } }).state
      ⟨0, 0⟩ { status := 500, errorText := "down", error := none, result := none }).result.cached = true ∧
    (deeplxTranslate "en" "es" "hello" "" true
      (deeplxTranslate "en" "es" "hello" "" true [] ⟨0, 0⟩
        { status := 200
          errorText := ""
          error := none
          result := some { texts := some [{ text := "hola", alternatives := none }]
                           lang := "EN" } }).state
      ⟨0, 0⟩ { status := 500, errorText := "down", error := none, result := none }).result.data =
      (deeplxTranslate "en" "es" "hello" "" true [] ⟨0, 0⟩
        { status := 200
          errorText := ""
          error := none
          result := some { texts := some [{ text := "hola", alternatives := none }]
                           lang := "EN" } }).result.data := by
  have h := claim6_idempotent "en" "es" "hello" "" [] ⟨0, 0⟩ ⟨0, 0⟩
    { status := 200
      errorText := ""
      error := none
      result := some { texts := some [{ text := "hola", alternatives := none }]
                       lang := "EN" } }
    { status := 500, errorText := "down", error := none, result := none }
    (by decide)
  exact ⟨by decide, h.1, h.2.1⟩

/-- Each restriction of the amended C5 is forced by a real collision of
the normalized key: a backslash in a language code is a segment separator
like a slash. -/
lemma url_backslash_collision :
    cacheKey "A\\B" "C" "x" = cacheKey "A" "B/C" "x" := by decide

/-- A text equal to a double-dot segment pops the target-language segment,
colliding with a single-dot target language and an empty text. -/
lemma url_dot_segment_collision :
    cacheKey "EN" "JA" ".." = cacheKey "EN" "." "" := by decide

/-- A non-ASCII language code collides with its percent-encoded spelling. -/
lemma url_percent_collision :
    cacheKey "\u00c9" "JA" "x" = cacheKey "%C3%89" "JA" "x" := by decide

/-- C5 counterexample: two distinct normalized triples with the same cache
key: a slash inside a language code shifts the segment boundaries of the
key URL, so ("A/B", "C", "x") and ("A", "B/C", "x") collide
deterministically. -/
theorem claim5_counterexample :
    cacheKey "A/B" "C" "x" = cacheKey "A" "B/C" "x" ∧
    ¬ (("A/B" : String) = "A" ∧ ("C" : String) = "B/C" ∧ ("x" : String) = "x") := by
  exact ⟨by decide, by decide⟩

/-- C5 (amended): the cache key (the WHATWG-normalized Request URL of the
template) is a pure deterministic function of the normalized triple, and on
triples whose language components are plain URL path segments (ASCII
letters, digits, hyphen, underscore) and whose texts are not the dot
segments "." or ".." it is injective: two keys are equal exactly when the
triples are componentwise equal.  Outside that range the URL normalization
(slash and backslash as segment separators, dot-segment removal,
percent-encoding) makes distinct triples collide deterministically. -/
theorem claim5_cacheKey_amended (s₁ t₁ x₁ s₂ t₂ x₂ : String)
    (hs₁ : ∀ c ∈ s₁.data, plainLangChar c.toNat = true)
    (ht₁ : ∀ c ∈ t₁.data, plainLangChar c.toNat = true)
    (hs₂ : ∀ c ∈ s₂.data, plainLangChar c.toNat = true)
    (ht₂ : ∀ c ∈ t₂.data, plainLangChar c.toNat = true)
    (hx₁ : x₁ ≠ ".") (hx₁' : x₁ ≠ "..")
    (hx₂ : x₂ ≠ ".") (hx₂' : x₂ ≠ "..") :
    cacheKey s₁ t₁ x₁ = cacheKey s₂ t₂ x₂ ↔ (s₁ = s₂ ∧ t₁ = t₂ ∧ x₁ = x₂) := by
  rw [cacheKey_plain_eq_raw hs₁ ht₁ hx₁ hx₁',
    cacheKey_plain_eq_raw hs₂ ht₂ hx₂ hx₂']
  constructor
  · exact rawKey_inj
      (fun hm => absurd (hs₁ '/' hm) (by decide))
      (fun hm => absurd (ht₁ '/' hm) (by decide))
      (fun hm => absurd (hs₂ '/' hm) (by decide))
      (fun hm => absurd (ht₂ '/' hm) (by decide))
  · rintro ⟨rfl, rfl, rfl⟩
    rfl

/-- C5 witness: the amended theorem applied at plain language codes and
non-dot texts; two keys differing only in the text differ. -/
theorem claim5_witness :
    cacheKey "EN" "JA" "a" ≠ cacheKey "EN" "JA" "b" := by
  intro h
  have h' := (claim5_cacheKey_amended "EN" "JA" "a" "EN" "JA" "b"
    (by decide) (by decide) (by decide) (by decide)
    (by decide) (by decide) (by decide) (by decide)).mp h
  exact absurd h'.2.2 (by decide)

/-- C8: the body perturbation rewrites the first occurrence of the literal
substring with spaces around the colon exactly when
(requestId + 5) mod 29 = 0 or (requestId + 3) mod 13 = 0, and with a single
space after the colon otherwise; if the substring is absent the body is
returned unchanged. -/
theorem claim8_body_perturbation (random : ℤ) (body : List Char) :
    (handlerCalc random = true ↔ ((random + 5) % 29 = 0 ∨ (random + 3) % 13 = 0)) ∧
    handlerBodyMethod random body =
      replaceFirst body methodPat
        (if handlerCalc random then methodRepSpaced else methodRepPlain) ∧
    ((∀ A B, body ≠ A ++ (methodPat ++ B)) → handlerBodyMethod random body = body) ∧
    (∀ A B, body = A ++ (methodPat ++ B) →
      (∀ A' B', body = A' ++ (methodPat ++ B') → A.length ≤ A'.length) →
      handlerBodyMethod random body =
        A ++ ((if handlerCalc random then methodRepSpaced else methodRepPlain) ++ B)) := by
  refine ⟨by simp [handlerCalc], ?_, ?_, ?_⟩
  · unfold handlerBodyMethod
    by_cases hc : handlerCalc random = true
    · rw [if_pos hc, if_pos hc]
    · rw [if_neg hc, if_neg hc]
  · intro hno
    unfold handlerBodyMethod
    by_cases hc : handlerCalc random = true
    · rw [if_pos hc]
      exact replaceFirst_no_occ (by decide) _ _ hno
    · rw [if_neg hc]
      exact replaceFirst_no_occ (by decide) _ _ hno
  · intro A B hbody hmin
    subst hbody
    unfold handlerBodyMethod
    by_cases hc : handlerCalc random = true
    · rw [if_pos hc, if_pos hc]
      exact replaceFirst_first_occ _ _ _ hmin
    · rw [if_neg hc, if_neg hc]
      exact replaceFirst_first_occ _ _ _ hmin

/-- C8 witness: the theorem applied at requestId 24 (where 24 + 5 = 29, so
the spaced variant is used) and at a body without the substring; concrete
evaluations of both rewrite variants. -/
theorem claim8_witness :
    handlerCalc 24 = true ∧ handlerCalc 7 = false ∧
    handlerBodyMethod 24 "x\"method\":\"y".data = "x\"method\" : \"y".data ∧
    handlerBodyMethod 7 "x\"method\":\"y".data = "x\"method\": \"y".data ∧
    handlerBodyMethod 24 "abc".data = "abc".data := by
  have hno : ∀ A B, ("abc".data : List Char) ≠ A ++ (methodPat ++ B) := by
    intro A B h
    have hlen := congrArg List.length h
    rw [List.length_append, List.length_append] at hlen
    have h1 : ("abc".data).length = 3 := by decide
    have h2 : methodPat.length = 10 := by decide
    omega
  refine ⟨by decide, by decide, by decide, by decide, ?_⟩
  exact (claim8_body_perturbation 24 "abc".data).2.2.1 hno

end DeepLX
